import Mathlib

/-!
Shallow embedding of the pqos utility query layer (src/lib/utils.c):
topology group counting, socket enumeration, per-group core listing and
capability/event lookup, together with theorems about their behaviour.

Machine integers (`unsigned`, `int`) only ever hold ids, counts bounded by
the core-list length, and small enum constants here; no arithmetic that
could wrap is performed, so they are modelled as `Nat` (ids, counts) and
`Int` (the `type` selector that C passes as `int`).

Output parameters written through pointers are modelled by threading the
initial value of the caller's variable (`count0`) through the function and
returning the final value: a path that never assigns the C `*count`
returns `count0` unchanged.  Caller-provided output buffers are modelled
as the list of values written so far (writes happen at strictly
increasing indices in the C code, so a written buffer prefix is a list
append).
-/

/-- Modelled from the spec: the `PQOS_RETVAL_*` status codes declared in the
`pqos.h` header, which is not part of the excerpt.  The spec's taxonomy maps
onto them as: OK, PARAM = InvalidArgument, ERROR = the generic error code
used for NotFound and Overflow, RESOURCE = CapabilityAbsent. -/
inductive Retval where
  | OK
  | ERROR
  | PARAM
  | RESOURCE
deriving DecidableEq, Repr

/-- Modelled from the spec and from the field accesses in `utils.c`: one
per-core record of the topology snapshot (`struct pqos_coreinfo`), with
logical core id, socket id, L2 cluster id and L3 cluster id. -/
structure CoreInfo where
  lcore : Nat
  socket : Nat
  l2_id : Nat
  l3_id : Nat
deriving DecidableEq, Repr

/-- Modelled from the spec and from the accesses in `utils.c`: the topology
snapshot (`struct pqos_cpuinfo`): a flat ordered core list.  The C field
`num_cores` is `cores.length`.  A NULL snapshot pointer is modelled as
`none` at each entry point. -/
structure PqosCpuinfo where
  cores : List CoreInfo
deriving DecidableEq, Repr

def TOPO_OBJ_SOCKET : Int := 0

def TOPO_OBJ_L2_CLUSTER : Int := 2

def TOPO_OBJ_L3_CLUSTER : Int := 3

/-- The break condition of the inner scan of `__get_num_of_topology_objs`:
current core `a` shares the grouping key selected by `t` with earlier core
`b`. -/
def topoMatch (t : Int) (a b : CoreInfo) : Bool :=
  (t == TOPO_OBJ_SOCKET && a.socket == b.socket) ||
  (t == TOPO_OBJ_L2_CLUSTER && a.l2_id == b.l2_id) ||
  (t == TOPO_OBJ_L3_CLUSTER && a.l3_id == b.l3_id)

/-- The double loop of `__get_num_of_topology_objs` (utils.c:82-102): `seen`
is the already-processed prefix `cores[0..i)`; a core of `rest` contributes
1 exactly when no core of the prefix shares its grouping key. -/
def countNewObjs (t : Int) : List CoreInfo → List CoreInfo → Nat
  | _, [] => 0
  | seen, c :: rest =>
    (if seen.any (fun d => topoMatch t c d) then 0 else 1) +
      countNewObjs t (seen ++ [c]) rest

/-- `__get_num_of_topology_objs` (utils.c:66-105): number of distinct
topology objects of kind `t`; 0 on NULL snapshot, unsupported kind, or an
empty core list (all returned before the scan).  The count is seeded at 1
for the first core. -/
def get_num_of_topology_objs (cpu : Option PqosCpuinfo) (t : Int) : Nat :=
  match cpu with
  | none => 0
  | some cp =>
    if t ≠ TOPO_OBJ_SOCKET ∧ t ≠ TOPO_OBJ_L2_CLUSTER ∧ t ≠ TOPO_OBJ_L3_CLUSTER then 0
    else
      match cp.cores with
      | [] => 0
      | c0 :: rest => 1 + countNewObjs t [c0] rest

/-- `pqos_cpu_get_num_sockets` (utils.c:107-120).  `count0` is the value the
caller's `*count` held before the call; the function assigns `*count` before
testing it for 0, so the zero path returns `(ERROR, 0)`. -/
def pqos_cpu_get_num_sockets (cpu : Option PqosCpuinfo) (count0 : Nat) :
    Retval × Nat :=
  match cpu with
  | none => (Retval.PARAM, count0)
  | some cp =>
    let n := get_num_of_topology_objs (some cp) TOPO_OBJ_SOCKET
    if n = 0 then (Retval.ERROR, n) else (Retval.OK, n)

/-- The three grouping-key kinds the spec calls socket, L2 cluster and L3
cluster, used to quantify theorems over all supported kinds. -/
inductive GroupKey where
  | sock
  | l2
  | l3
deriving DecidableEq, Repr

def GroupKey.toType : GroupKey → Int
  | .sock => TOPO_OBJ_SOCKET
  | .l2 => TOPO_OBJ_L2_CLUSTER
  | .l3 => TOPO_OBJ_L3_CLUSTER

def GroupKey.keyFun : GroupKey → CoreInfo → Nat
  | .sock => CoreInfo.socket
  | .l2 => CoreInfo.l2_id
  | .l3 => CoreInfo.l3_id

lemma topoMatch_eq_key (g : GroupKey) (a b : CoreInfo) :
    topoMatch g.toType a b = (g.keyFun a == g.keyFun b) := by
  cases g <;>
    simp [topoMatch, GroupKey.toType, GroupKey.keyFun, TOPO_OBJ_SOCKET,
      TOPO_OBJ_L2_CLUSTER, TOPO_OBJ_L3_CLUSTER]

lemma countNewObjs_add_card (g : GroupKey) :
    ∀ (rest seen : List CoreInfo),
      countNewObjs g.toType seen rest + ((seen.map g.keyFun).toFinset).card =
        (((seen ++ rest).map g.keyFun).toFinset).card := by
  intro rest
  induction rest with
  | nil => intro seen; simp [countNewObjs]
  | cons c rest ih =>
    intro seen
    have hany : (seen.any fun d => topoMatch g.toType c d) =
        decide (g.keyFun c ∈ (seen.map g.keyFun).toFinset) := by
      simp only [topoMatch_eq_key, List.any_eq_true, List.mem_toFinset,
        List.mem_map]
      rw [Bool.eq_iff_iff]
      simp only [List.any_eq_true, beq_iff_eq, decide_eq_true_eq]
      constructor
      · rintro ⟨d, hd, hk⟩; exact ⟨d, hd, hk.symm⟩
      · rintro ⟨d, hd, hk⟩; exact ⟨d, hd, hk.symm⟩
    have hfin : (((seen ++ [c]).map g.keyFun).toFinset) =
        insert (g.keyFun c) ((seen.map g.keyFun).toFinset) := by
      simp [List.map_append, List.toFinset_append, Finset.union_comm,
        Finset.insert_eq]
    by_cases hmem : g.keyFun c ∈ (seen.map g.keyFun).toFinset
    · have h1 : (seen.any fun d => topoMatch g.toType c d) = true := by
        rw [hany]; simpa using hmem
      have h2 : (((seen ++ [c]).map g.keyFun).toFinset) =
          (seen.map g.keyFun).toFinset := by
        rw [hfin, Finset.insert_eq_self.mpr hmem]
      have := ih (seen ++ [c])
      rw [h2] at this
      calc countNewObjs g.toType seen (c :: rest) +
            ((seen.map g.keyFun).toFinset).card
          = countNewObjs g.toType (seen ++ [c]) rest +
            ((seen.map g.keyFun).toFinset).card := by
            simp [countNewObjs, h1]
        _ = (((seen ++ [c] ++ rest).map g.keyFun).toFinset).card := this
        _ = (((seen ++ c :: rest).map g.keyFun).toFinset).card := by
            simp [List.append_assoc]
    · have h1 : (seen.any fun d => topoMatch g.toType c d) = false := by
        rw [hany]; simpa using hmem
      have h2 : (((seen ++ [c]).map g.keyFun).toFinset).card =
          ((seen.map g.keyFun).toFinset).card + 1 := by
        rw [hfin, Finset.card_insert_of_not_mem hmem]
      have hrec := ih (seen ++ [c])
      have hstep : countNewObjs g.toType seen (c :: rest) =
          1 + countNewObjs g.toType (seen ++ [c]) rest := by
        simp [countNewObjs, h1]
      have hassoc : (((seen ++ c :: rest).map g.keyFun).toFinset).card =
          (((seen ++ [c] ++ rest).map g.keyFun).toFinset).card := by
        simp [List.append_assoc]
      rw [hstep, hassoc]
      omega

lemma get_num_eq_card (g : GroupKey) (c0 : CoreInfo) (rest : List CoreInfo) :
    get_num_of_topology_objs (some ⟨c0 :: rest⟩) g.toType =
      (((c0 :: rest).map g.keyFun).toFinset).card := by
  have hvalid : ¬ (g.toType ≠ TOPO_OBJ_SOCKET ∧ g.toType ≠ TOPO_OBJ_L2_CLUSTER ∧
      g.toType ≠ TOPO_OBJ_L3_CLUSTER) := by
    cases g <;> simp [GroupKey.toType]
  have h := countNewObjs_add_card g rest [c0]
  simp only [List.singleton_append] at h
  simp only [get_num_of_topology_objs, hvalid, if_false]
  have hone : (([c0].map g.keyFun).toFinset).card = 1 := by
    simp
  rw [← h]
  simp only [List.map_cons, List.map_nil] at hone ⊢
  omega

/-- First-seen deduplication: the socket ids of `l` that are not already in
`acc`, appended to `acc` in order of first occurrence.  This is the
mathematical recap of the collection performed by the loop of
`pqos_cpu_get_sockets`. -/
def firstSeen (acc : List Nat) : List Nat → List Nat
  | [] => acc
  | x :: xs => if x ∈ acc then firstSeen acc xs else firstSeen (acc ++ [x]) xs

/-- The loop of `pqos_cpu_get_sockets` (utils.c:138-157) followed by the
final `*count` write (utils.c:159): `buf` is the written buffer prefix (the
C `scount` always equals its length), `count0` the caller's initial
`*count`.  A socket not yet reported is appended unless the buffer is full,
in which case the function returns the generic error with `*count`
untouched. -/
def getSocketsLoop (maxCount count0 : Nat) :
    List CoreInfo → List Nat → Retval × Nat × List Nat
  | [], buf => (Retval.OK, buf.length, buf)
  | c :: rest, buf =>
    if c.socket ∈ buf then getSocketsLoop maxCount count0 rest buf
    else if maxCount ≤ buf.length then (Retval.ERROR, count0, buf)
    else getSocketsLoop maxCount count0 rest (buf ++ [c.socket])

/-- `pqos_cpu_get_sockets` (utils.c:122-161).  The scan starts at core
index 1 (`for (i = 1; ...)`), hence `cores.tail`. -/
def pqos_cpu_get_sockets (cpu : Option PqosCpuinfo) (maxCount count0 : Nat) :
    Retval × Nat × List Nat :=
  match cpu with
  | none => (Retval.PARAM, count0, [])
  | some cp =>
    if maxCount = 0 then (Retval.PARAM, count0, [])
    else getSocketsLoop maxCount count0 cp.cores.tail []

lemma firstSeen_length_le : ∀ (l acc : List Nat),
    acc.length ≤ (firstSeen acc l).length := by
  intro l
  induction l with
  | nil => intro acc; simp [firstSeen]
  | cons x xs ih =>
    intro acc
    by_cases h : x ∈ acc
    · simpa [firstSeen, h] using ih acc
    · have := ih (acc ++ [x])
      simp only [firstSeen, h, if_false, List.length_append] at this ⊢
      omega

lemma firstSeen_mem : ∀ (l acc : List Nat) (x : Nat),
    x ∈ firstSeen acc l → x ∈ acc ∨ x ∈ l := by
  intro l
  induction l with
  | nil => intro acc x h; exact Or.inl (by simpa [firstSeen] using h)
  | cons y ys ih =>
    intro acc x h
    by_cases hy : y ∈ acc
    · rcases ih acc x (by simpa [firstSeen, hy] using h) with h1 | h1
      · exact Or.inl h1
      · exact Or.inr (List.mem_cons_of_mem _ h1)
    · rcases ih (acc ++ [y]) x (by simpa [firstSeen, hy] using h) with h1 | h1
      · rcases List.mem_append.mp h1 with h2 | h2
        · exact Or.inl h2
        · exact Or.inr (by simp at h2; simp [h2])
      · exact Or.inr (List.mem_cons_of_mem _ h1)

lemma firstSeen_toFinset : ∀ (l acc : List Nat),
    (firstSeen acc l).toFinset = acc.toFinset ∪ l.toFinset := by
  intro l
  induction l with
  | nil => intro acc; simp [firstSeen]
  | cons y ys ih =>
    intro acc
    by_cases hy : y ∈ acc
    · rw [show firstSeen acc (y :: ys) = firstSeen acc ys by simp [firstSeen, hy]]
      rw [ih acc]
      ext a
      simp only [Finset.mem_union, List.mem_toFinset, List.mem_cons]
      constructor
      · rintro (h | h)
        · exact Or.inl h
        · exact Or.inr (Or.inr h)
      · rintro (h | h | h)
        · exact Or.inl h
        · exact Or.inl (h ▸ hy)
        · exact Or.inr h
    · rw [show firstSeen acc (y :: ys) = firstSeen (acc ++ [y]) ys by
        simp [firstSeen, hy]]
      rw [ih (acc ++ [y])]
      ext a
      simp only [Finset.mem_union, List.mem_toFinset, List.mem_append,
        List.mem_singleton, List.mem_cons]
      tauto

lemma firstSeen_nodup : ∀ (l acc : List Nat), acc.Nodup →
    (firstSeen acc l).Nodup := by
  intro l
  induction l with
  | nil => intro acc h; simpa [firstSeen] using h
  | cons y ys ih =>
    intro acc h
    by_cases hy : y ∈ acc
    · simpa [firstSeen, hy] using ih acc h
    · have hnew : (acc ++ [y]).Nodup := by
        simp [List.nodup_append, h, hy]
      simpa [firstSeen, hy] using ih (acc ++ [y]) hnew

lemma firstSeen_sublist : ∀ (l acc : List Nat),
    ∃ t, firstSeen acc l = acc ++ t ∧ List.Sublist t l := by
  intro l
  induction l with
  | nil => intro acc; exact ⟨[], by simp [firstSeen]⟩
  | cons y ys ih =>
    intro acc
    by_cases hy : y ∈ acc
    · obtain ⟨t, ht, hs⟩ := ih acc
      exact ⟨t, by simpa [firstSeen, hy] using ht, hs.cons y⟩
    · obtain ⟨t, ht, hs⟩ := ih (acc ++ [y])
      refine ⟨y :: t, ?_, hs.cons₂ y⟩
      rw [show firstSeen acc (y :: ys) = firstSeen (acc ++ [y]) ys by
        simp [firstSeen, hy]]
      simpa [List.append_assoc] using ht

/-- Characterization of the socket-collection loop: with a partially filled
buffer `buf` that still fits, the loop returns OK with exactly the
first-seen deduplication of the socket ids, writing its length to the
count; when the deduplicated list exceeds capacity it returns the generic
error with the count untouched. -/
lemma getSocketsLoop_spec (maxCount count0 : Nat) :
    ∀ (l : List CoreInfo) (buf : List Nat), buf.length ≤ maxCount →
      ((firstSeen buf (l.map CoreInfo.socket)).length ≤ maxCount →
        getSocketsLoop maxCount count0 l buf =
          (Retval.OK, (firstSeen buf (l.map CoreInfo.socket)).length,
            firstSeen buf (l.map CoreInfo.socket))) ∧
      (maxCount < (firstSeen buf (l.map CoreInfo.socket)).length →
        (getSocketsLoop maxCount count0 l buf).1 = Retval.ERROR ∧
        (getSocketsLoop maxCount count0 l buf).2.1 = count0) := by
  intro l
  induction l with
  | nil =>
    intro buf hbuf
    refine ⟨fun _ => by simp [getSocketsLoop, firstSeen], fun h => ?_⟩
    simp only [List.map_nil, firstSeen] at h
    omega
  | cons c rest ih =>
    intro buf hbuf
    by_cases hmem : c.socket ∈ buf
    · have hfs : firstSeen buf ((c :: rest).map CoreInfo.socket) =
          firstSeen buf (rest.map CoreInfo.socket) := by
        simp [firstSeen, hmem]
      have hloop : getSocketsLoop maxCount count0 (c :: rest) buf =
          getSocketsLoop maxCount count0 rest buf := by
        simp [getSocketsLoop, hmem]
      rw [hfs, hloop]
      exact ih buf hbuf
    · by_cases hfull : maxCount ≤ buf.length
      · have hlen : maxCount < (firstSeen buf
            ((c :: rest).map CoreInfo.socket)).length := by
          have h1 : (buf ++ [c.socket]).length ≤
              (firstSeen (buf ++ [c.socket]) (rest.map CoreInfo.socket)).length :=
            firstSeen_length_le _ _
          have h2 : firstSeen buf ((c :: rest).map CoreInfo.socket) =
              firstSeen (buf ++ [c.socket]) (rest.map CoreInfo.socket) := by
            simp [firstSeen, hmem]
          rw [h2]
          simp only [List.length_append, List.length_singleton] at h1
          omega
        have hloop : getSocketsLoop maxCount count0 (c :: rest) buf =
            (Retval.ERROR, count0, buf) := by
          simp [getSocketsLoop, hmem, hfull]
        refine ⟨fun h => absurd h (by omega), fun _ => by rw [hloop]; exact ⟨rfl, rfl⟩⟩
      · have hfs : firstSeen buf ((c :: rest).map CoreInfo.socket) =
            firstSeen (buf ++ [c.socket]) (rest.map CoreInfo.socket) := by
          simp [firstSeen, hmem]
        have hloop : getSocketsLoop maxCount count0 (c :: rest) buf =
            getSocketsLoop maxCount count0 rest (buf ++ [c.socket]) := by
          simp [getSocketsLoop, hmem, hfull]
        rw [hfs, hloop]
        exact ih (buf ++ [c.socket]) (by simp; omega)

/-- The length of the first-seen deduplication of `l` starting from an
empty accumulator is the number of distinct values of `l`. -/
lemma firstSeen_nil_length (l : List Nat) :
    (firstSeen [] l).length = l.toFinset.card := by
  have h1 : (firstSeen [] l).Nodup := firstSeen_nodup l [] (by simp)
  have h2 : (firstSeen [] l).toFinset = l.toFinset := by
    rw [firstSeen_toFinset]; simp
  calc (firstSeen [] l).length = (firstSeen [] l).toFinset.card :=
        (List.toFinset_card_of_nodup h1).symm
    _ = l.toFinset.card := by rw [h2]

/-- The loop of `pqos_cpu_get_cores` (utils.c:238-257) together with the
final count check and write (utils.c:259-263).  `buf` is the written buffer
prefix (the C `cnt` always equals its length).  On a match: with
`maxCount = 1` the fast path writes the core id at index 0 and count 1 and
returns OK immediately; otherwise a full buffer yields the generic error
with `*count` untouched, else the id is appended.  After the scan, zero
collected cores yield the generic error, otherwise the count is written. -/
def getCoresLoop (s maxCount count0 : Nat) :
    List CoreInfo → List Nat → Retval × Nat × List Nat
  | [], buf =>
    if buf.length = 0 then (Retval.ERROR, count0, buf)
    else (Retval.OK, buf.length, buf)
  | c :: rest, buf =>
    if c.socket = s then
      if maxCount = 1 then (Retval.OK, 1, [c.lcore])
      else if maxCount ≤ buf.length then (Retval.ERROR, count0, buf)
      else getCoresLoop s maxCount count0 rest (buf ++ [c.lcore])
    else getCoresLoop s maxCount count0 rest buf

/-- `pqos_cpu_get_cores` (utils.c:220-264). -/
def pqos_cpu_get_cores (cpu : Option PqosCpuinfo) (s maxCount count0 : Nat) :
    Retval × Nat × List Nat :=
  match cpu with
  | none => (Retval.PARAM, count0, [])
  | some cp =>
    if maxCount = 0 then (Retval.PARAM, count0, [])
    else getCoresLoop s maxCount count0 cp.cores []

/-- Fast-path characterization of the core-collection loop: with capacity 1,
the first core matching the socket is returned alone with count 1 and OK,
whatever follows. -/
lemma getCoresLoop_one (s count0 : Nat) :
    ∀ (l : List CoreInfo) (buf : List Nat) (m : CoreInfo) (ms : List CoreInfo),
      l.filter (fun c => c.socket == s) = m :: ms →
      getCoresLoop s 1 count0 l buf = (Retval.OK, 1, [m.lcore]) := by
  intro l
  induction l with
  | nil => intro buf m ms h; simp at h
  | cons c rest ih =>
    intro buf m ms h
    by_cases hc : c.socket = s
    · have : (c :: rest).filter (fun c => c.socket == s) =
          c :: rest.filter (fun c => c.socket == s) := by
        simp [List.filter_cons, hc]
      rw [this] at h
      injection h with h1 _
      subst h1
      simp [getCoresLoop, hc]
    · have : (c :: rest).filter (fun c => c.socket == s) =
          rest.filter (fun c => c.socket == s) := by
        simp [List.filter_cons, hc]
      rw [this] at h
      simpa [getCoresLoop, hc] using ih buf m ms h

/-- General characterization of the core-collection loop when the capacity
is not 1: writing on top of a partial buffer that still fits, the result is
the generic error with count untouched when there are no matches at all or
when the matches overflow the capacity, and OK with the accumulated matched
core ids and their count otherwise. -/
lemma getCoresLoop_spec (s maxCount count0 : Nat) (hmc : maxCount ≠ 1) :
    ∀ (l : List CoreInfo) (buf : List Nat), buf.length ≤ maxCount →
      (buf.length + ((l.filter (fun c => c.socket == s)).map CoreInfo.lcore).length = 0 →
        getCoresLoop s maxCount count0 l buf = (Retval.ERROR, count0, buf)) ∧
      (0 < buf.length + ((l.filter (fun c => c.socket == s)).map CoreInfo.lcore).length →
        buf.length + ((l.filter (fun c => c.socket == s)).map CoreInfo.lcore).length ≤ maxCount →
        getCoresLoop s maxCount count0 l buf =
          (Retval.OK,
            buf.length + ((l.filter (fun c => c.socket == s)).map CoreInfo.lcore).length,
            buf ++ (l.filter (fun c => c.socket == s)).map CoreInfo.lcore)) ∧
      (maxCount < buf.length + ((l.filter (fun c => c.socket == s)).map CoreInfo.lcore).length →
        (getCoresLoop s maxCount count0 l buf).1 = Retval.ERROR ∧
        (getCoresLoop s maxCount count0 l buf).2.1 = count0) := by
  intro l
  induction l with
  | nil =>
    intro buf hbuf
    refine ⟨fun h => ?_, fun h1 h2 => ?_, fun h => ?_⟩
    · simp only [List.filter_nil, List.map_nil, List.length_nil, Nat.add_zero] at h
      simp [getCoresLoop, h]
    · simp only [List.filter_nil, List.map_nil, List.length_nil, Nat.add_zero] at h1 h2 ⊢
      have hne : buf.length ≠ 0 := by omega
      simp [getCoresLoop, hne]
    · simp only [List.filter_nil, List.map_nil, List.length_nil, Nat.add_zero] at h
      omega
  | cons c rest ih =>
    intro buf hbuf
    by_cases hc : c.socket = s
    · have hf : (c :: rest).filter (fun c => c.socket == s) =
          c :: rest.filter (fun c => c.socket == s) := by
        simp [List.filter_cons, hc]
      by_cases hfull : maxCount ≤ buf.length
      · have hloop : getCoresLoop s maxCount count0 (c :: rest) buf =
            (Retval.ERROR, count0, buf) := by
          simp [getCoresLoop, hc, hmc, hfull]
        refine ⟨fun h => ?_, fun h1 h2 => ?_, fun _ => by rw [hloop]; exact ⟨rfl, rfl⟩⟩
        · rw [hf] at h
          simp only [List.map_cons, List.length_cons] at h
          omega
        · rw [hf] at h2
          simp only [List.map_cons, List.length_cons] at h2
          omega
      · have hloop : getCoresLoop s maxCount count0 (c :: rest) buf =
            getCoresLoop s maxCount count0 rest (buf ++ [c.lcore]) := by
          simp [getCoresLoop, hc, hmc, hfull]
        have hlen : (buf ++ [c.lcore]).length ≤ maxCount := by simp; omega
        obtain ⟨ih1, ih2, ih3⟩ := ih (buf ++ [c.lcore]) hlen
        refine ⟨fun h => ?_, fun h1 h2 => ?_, fun h => ?_⟩
        · rw [hf] at h; simp at h
        · rw [hloop]
          rw [hf]
          have h2' : (buf ++ [c.lcore]).length +
              ((rest.filter (fun c => c.socket == s)).map CoreInfo.lcore).length ≤
              maxCount := by
            rw [hf] at h2; simp at h2 ⊢; omega
          have := ih2 (by simp) h2'
          rw [this]
          simp only [List.length_append, List.map_cons, List.length_cons,
            List.length_nil, List.append_assoc, List.singleton_append,
            Prod.mk.injEq]
          exact ⟨trivial, by omega, trivial⟩
        · rw [hloop]
          refine ih3 ?_
          rw [hf] at h; simp at h ⊢; omega
    · have hf : (c :: rest).filter (fun c => c.socket == s) =
          rest.filter (fun c => c.socket == s) := by
        simp [List.filter_cons, hc]
      have hloop : getCoresLoop s maxCount count0 (c :: rest) buf =
          getCoresLoop s maxCount count0 rest buf := by
        simp [getCoresLoop, hc]
      rw [hf, hloop]
      exact ih buf hbuf

/-- The selection condition of the scan of `__get_cores_per_topology_obj`
(utils.c:195-200), in the disjunct order of the C source. -/
def topoIdMatch (t : Int) (id : Nat) (c : CoreInfo) : Bool :=
  (t == TOPO_OBJ_L3_CLUSTER && id == c.l3_id) ||
  (t == TOPO_OBJ_L2_CLUSTER && id == c.l2_id) ||
  (t == TOPO_OBJ_SOCKET && id == c.socket)

/-- The collection loop of `__get_cores_per_topology_obj` (utils.c:195-201):
the logical core ids of the cores matching the object id, in snapshot
order. -/
def coresPerObjLoop (t : Int) (id : Nat) : List CoreInfo → List Nat
  | [] => []
  | c :: rest =>
    (if topoIdMatch t id c then [c.lcore] else []) ++ coresPerObjLoop t id rest

/-- `__get_cores_per_topology_obj` (utils.c:177-210).  The returned pointer
is modelled as an `Option`: `none` for the NULL return (NULL snapshot or no
core found), on which `*count` (threaded as `count0`) is left untouched.
The `malloc` of the result list is assumed to succeed: allocation failure
is a non-deterministic environment event outside the embedding. -/
def get_cores_per_topology_obj (cpu : Option PqosCpuinfo) (t : Int)
    (id count0 : Nat) : Nat × Option (List Nat) :=
  match cpu with
  | none => (count0, none)
  | some cp =>
    let l := coresPerObjLoop t id cp.cores
    if l.length = 0 then (count0, none) else (l.length, some l)

/-- `pqos_cpu_get_cores_l3id` (utils.c:212-218). -/
def pqos_cpu_get_cores_l3id (cpu : Option PqosCpuinfo) (l3_id count0 : Nat) :
    Nat × Option (List Nat) :=
  get_cores_per_topology_obj cpu TOPO_OBJ_L3_CLUSTER l3_id count0

lemma topoIdMatch_eq_key (g : GroupKey) (id : Nat) (c : CoreInfo) :
    topoIdMatch g.toType id c = (g.keyFun c == id) := by
  cases g <;>
    simp [topoIdMatch, GroupKey.toType, GroupKey.keyFun, TOPO_OBJ_SOCKET,
      TOPO_OBJ_L2_CLUSTER, TOPO_OBJ_L3_CLUSTER, Nat.beq_eq, eq_comm]

lemma coresPerObjLoop_eq_filter (g : GroupKey) (id : Nat) :
    ∀ l : List CoreInfo, coresPerObjLoop g.toType id l =
      (l.filter (fun c => g.keyFun c == id)).map CoreInfo.lcore := by
  intro l
  induction l with
  | nil => simp [coresPerObjLoop]
  | cons c rest ih =>
    by_cases hc : topoIdMatch g.toType id c
    · have hk : (g.keyFun c == id) = true := by rw [← topoIdMatch_eq_key]; exact hc
      simp [coresPerObjLoop, hc, List.filter_cons, hk, ih]
    · have hk : (g.keyFun c == id) = false := by
        rw [← topoIdMatch_eq_key]; simpa using hc
      simp [coresPerObjLoop, hc, List.filter_cons, hk, ih]

/-- Modelled from the spec: the event descriptor of the monitoring payload
(`struct pqos_monitor` of `pqos.h`, absent from the excerpt), carrying the
event tag the lookup compares. -/
structure PqosMonitor where
  type : Nat
deriving DecidableEq, Repr

/-- Modelled from the spec: the monitoring capability payload
(`struct pqos_cap_mon`): an ordered event list (`num_events` is its
length). -/
structure PqosCapMon where
  events : List PqosMonitor
deriving DecidableEq, Repr

/-- Modelled from the spec: the L3/L2 cache-allocation capability payload
(`struct pqos_cap_l3ca` / `pqos_cap_l2ca`): class-of-service count and CDP
flags (C `int` flags modelled as `Int`). -/
structure PqosCapCa where
  num_classes : Nat
  cdp : Int
  cdp_on : Int
deriving DecidableEq, Repr

/-- Modelled from the spec: a capability record (`struct pqos_capability`):
a tagged variant whose payload matches its tag (the spec data model makes
the tag/payload correspondence an invariant of the snapshot, so the C
type-field-plus-union pair is embedded as a sum). -/
inductive Capability where
  | mon (m : PqosCapMon)
  | l3ca (a : PqosCapCa)
  | l2ca (a : PqosCapCa)
deriving DecidableEq, Repr

/-- Modelled from the spec: the numeric value of the `enum pqos_cap_type`
tag of a record, with the header ordering MON = 0, L3CA = 1, L2CA = 2 and
`PQOS_CAP_TYPE_NUMOF` = 3. -/
def capTypeNat : Capability → Nat
  | .mon _ => 0
  | .l3ca _ => 1
  | .l2ca _ => 2

def PQOS_CAP_TYPE_MON : Nat := 0

def PQOS_CAP_TYPE_NUMOF : Nat := 3

/-- Modelled from the spec: the capability snapshot (`struct pqos_cap`): an
ordered capability list (`num_cap` is its length). -/
structure PqosCap where
  capabilities : List Capability
deriving DecidableEq, Repr

/-- The scan of `pqos_cap_get_type` (utils.c:337-343): `ret` starts at
`PQOS_RETVAL_RESOURCE` and the first record with the requested tag is
returned with OK; the output record reference is modelled as `Option`
(`none` = `*cap_item` not written). -/
def findCapLoop (t : Nat) : List Capability → Retval × Option Capability
  | [] => (Retval.RESOURCE, none)
  | c :: rest =>
    if capTypeNat c = t then (Retval.OK, some c) else findCapLoop t rest

/-- `pqos_cap_get_type` (utils.c:321-346). -/
def pqos_cap_get_type (cap : Option PqosCap) (t : Nat) :
    Retval × Option Capability :=
  match cap with
  | none => (Retval.PARAM, none)
  | some cp =>
    if PQOS_CAP_TYPE_NUMOF ≤ t then (Retval.PARAM, none)
    else findCapLoop t cp.capabilities

/-- The scan of `pqos_cap_get_event` (utils.c:368-376): `ret` starts at the
generic error and the first event with the requested tag is returned with
OK. -/
def findEventLoop (e : Nat) : List PqosMonitor → Retval × Option PqosMonitor
  | [] => (Retval.ERROR, none)
  | m :: rest =>
    if m.type = e then (Retval.OK, some m) else findEventLoop e rest

/-- `pqos_cap_get_event` (utils.c:348-379): resolves the monitoring
capability through `pqos_cap_get_type` and propagates its status verbatim
on failure; on success reads the monitoring payload (`cap_item->u.mon`) and
scans its event list.  The arm reading a non-monitoring payload is
unreachable: `pqos_cap_get_type` with the MON tag only ever returns a
monitoring record (in C that arm would be an ill-typed union read). -/
def pqos_cap_get_event (cap : Option PqosCap) (e : Nat) :
    Retval × Option PqosMonitor :=
  match cap with
  | none => (Retval.PARAM, none)
  | some cp =>
    match pqos_cap_get_type (some cp) PQOS_CAP_TYPE_MON with
    | (Retval.OK, some (Capability.mon m)) => findEventLoop e m.events
    | (Retval.OK, _) => (Retval.ERROR, none)
    | (ret, _) => (ret, none)

/-- The first monitoring payload of the capability list, the
specification-side counterpart of resolving the Monitoring capability. -/
def monCap (cap : PqosCap) : Option PqosCapMon :=
  cap.capabilities.findSome? fun c =>
    match c with
    | .mon m => some m
    | _ => none

lemma findCapLoop_eq_find (t : Nat) :
    ∀ l : List Capability, findCapLoop t l =
      match l.find? (fun c => capTypeNat c == t) with
      | some c => (Retval.OK, some c)
      | none => (Retval.RESOURCE, none) := by
  intro l
  induction l with
  | nil => simp [findCapLoop]
  | cons c rest ih =>
    by_cases hc : capTypeNat c = t
    · simp [findCapLoop, hc, List.find?]
    · have : (capTypeNat c == t) = false := by simpa using hc
      simp [findCapLoop, hc, List.find?, this, ih]

lemma findCapLoop_mon :
    ∀ l : List Capability, findCapLoop PQOS_CAP_TYPE_MON l =
      match l.findSome? (fun c => match c with | .mon m => some m | _ => none) with
      | some m => (Retval.OK, some (Capability.mon m))
      | none => (Retval.RESOURCE, none) := by
  intro l
  induction l with
  | nil => simp [findCapLoop, List.findSome?]
  | cons c rest ih =>
    cases c with
    | mon m =>
      simp [findCapLoop, capTypeNat, PQOS_CAP_TYPE_MON, List.findSome?]
    | l3ca a =>
      have : capTypeNat (Capability.l3ca a) ≠ PQOS_CAP_TYPE_MON := by
        simp [capTypeNat, PQOS_CAP_TYPE_MON]
      simp [findCapLoop, this, List.findSome?, ih]
    | l2ca a =>
      have : capTypeNat (Capability.l2ca a) ≠ PQOS_CAP_TYPE_MON := by
        simp [capTypeNat, PQOS_CAP_TYPE_MON]
      simp [findCapLoop, this, List.findSome?, ih]

lemma findEventLoop_eq_find (e : Nat) :
    ∀ l : List PqosMonitor, findEventLoop e l =
      match l.find? (fun m => m.type == e) with
      | some m => (Retval.OK, some m)
      | none => (Retval.ERROR, none) := by
  intro l
  induction l with
  | nil => simp [findEventLoop]
  | cons m rest ih =>
    by_cases hm : m.type = e
    · simp [findEventLoop, hm, List.find?]
    · have : (m.type == e) = false := by simpa using hm
      simp [findEventLoop, hm, List.find?, this, ih]

lemma pqos_cap_get_event_eq (cap : PqosCap) (e : Nat) :
    pqos_cap_get_event (some cap) e =
      match monCap cap with
      | none => (Retval.RESOURCE, none)
      | some m =>
        match m.events.find? (fun ev => ev.type == e) with
        | some ev => (Retval.OK, some ev)
        | none => (Retval.ERROR, none) := by
  have hmon := findCapLoop_mon cap.capabilities
  have hgt : pqos_cap_get_type (some cap) PQOS_CAP_TYPE_MON =
      findCapLoop PQOS_CAP_TYPE_MON cap.capabilities := by
    simp [pqos_cap_get_type, PQOS_CAP_TYPE_NUMOF, PQOS_CAP_TYPE_MON]
  simp only [pqos_cap_get_event, hgt, hmon, monCap]
  cases h : cap.capabilities.findSome?
      (fun c => match c with | .mon m => some m | _ => none) with
  | none => simp
  | some m => simp [findEventLoop_eq_find]

/-- C1: for every non-null topology snapshot with at least one core and a
valid grouping key (socket, L2 cluster, or L3 cluster), the group-counting
engine returns exactly the cardinality of the set of distinct values of
that grouping key across all cores; the public socket wrapper surfaces
that count with OK. -/
theorem C1_countGroups_card (g : GroupKey) (cores : List CoreInfo)
    (h : cores ≠ []) (count0 : Nat) :
    get_num_of_topology_objs (some ⟨cores⟩) g.toType =
      ((cores.map g.keyFun).toFinset).card ∧
    pqos_cpu_get_num_sockets (some ⟨cores⟩) count0 =
      (Retval.OK, ((cores.map CoreInfo.socket).toFinset).card) := by
  obtain ⟨c0, rest, rfl⟩ := List.exists_cons_of_ne_nil h
  refine ⟨get_num_eq_card g c0 rest, ?_⟩
  have hs := get_num_eq_card GroupKey.sock c0 rest
  have hkey : GroupKey.sock.keyFun = CoreInfo.socket := rfl
  rw [hkey] at hs
  have hpos : 0 < (((c0 :: rest).map CoreInfo.socket).toFinset).card := by
    apply Finset.card_pos.mpr
    exact ⟨c0.socket, by simp⟩
  have hne : get_num_of_topology_objs (some ⟨c0 :: rest⟩) TOPO_OBJ_SOCKET ≠ 0 := by
    rw [show TOPO_OBJ_SOCKET = GroupKey.sock.toType from rfl, hs]
    omega
  simp only [pqos_cpu_get_num_sockets, hne, if_neg hne]
  rw [show TOPO_OBJ_SOCKET = GroupKey.sock.toType from rfl, hs]
  simp

/-- Witness for C1 at a concrete snapshot: three cores on two sockets. -/
theorem C1_countGroups_card_witness :
    get_num_of_topology_objs
        (some ⟨[⟨0, 0, 0, 0⟩, ⟨1, 0, 0, 0⟩, ⟨2, 1, 1, 1⟩]⟩)
        GroupKey.sock.toType =
      (([⟨0, 0, 0, 0⟩, ⟨1, 0, 0, 0⟩,
          ⟨2, 1, 1, 1⟩].map GroupKey.sock.keyFun).toFinset).card ∧
    pqos_cpu_get_num_sockets
        (some ⟨[⟨0, 0, 0, 0⟩, ⟨1, 0, 0, 0⟩, ⟨2, 1, 1, 1⟩]⟩) 7 =
      (Retval.OK,
        (([⟨0, 0, 0, 0⟩, ⟨1, 0, 0, 0⟩,
            ⟨2, 1, 1, 1⟩].map CoreInfo.socket).toFinset).card) :=
  C1_countGroups_card GroupKey.sock
    [⟨0, 0, 0, 0⟩, ⟨1, 0, 0, 0⟩, ⟨2, 1, 1, 1⟩] (by decide) 7

/-- C3 counterexample: on a snapshot with zero cores the socket-count query
returns the generic error code (having written 0 to the count), not the
InvalidArgument (parameter) code the claim requires. -/
theorem C3_countGroups_counterexample :
    pqos_cpu_get_num_sockets (some ⟨[]⟩) 7 = (Retval.ERROR, 0) ∧
    Retval.ERROR ≠ Retval.PARAM := by decide

/-- C3 amended: the group-count query fails with InvalidArgument only for a
null snapshot; a snapshot with zero cores yields the generic error code
(with 0 written to the count), and an unsupported grouping key or a null
snapshot makes the internal counter return 0 before its scan is entered. -/
theorem C3_countGroups_amended (t : Int) (cores : List CoreInfo) (count0 : Nat) :
    (pqos_cpu_get_num_sockets none count0 = (Retval.PARAM, count0)) ∧
    (pqos_cpu_get_num_sockets (some ⟨[]⟩) count0 = (Retval.ERROR, 0)) ∧
    (get_num_of_topology_objs none t = 0) ∧
    (t ≠ TOPO_OBJ_SOCKET → t ≠ TOPO_OBJ_L2_CLUSTER → t ≠ TOPO_OBJ_L3_CLUSTER →
      get_num_of_topology_objs (some ⟨cores⟩) t = 0) ∧
    (get_num_of_topology_objs (some ⟨[]⟩) t = 0) := by
  refine ⟨rfl, rfl, rfl, fun h1 h2 h3 => ?_, ?_⟩
  · simp [get_num_of_topology_objs, h1, h2, h3]
  · simp [get_num_of_topology_objs]

/-- Witness for C3 amended at the unsupported grouping key 7. -/
theorem C3_countGroups_amended_witness :
    get_num_of_topology_objs (some ⟨[⟨0, 0, 0, 0⟩]⟩) 7 = 0 :=
  (C3_countGroups_amended 7 [⟨0, 0, 0, 0⟩] 0).2.2.2.1
    (by decide) (by decide) (by decide)

/-- C2 counterexample: a single-core snapshot whose only core sits on
socket 5, with room for one entry, yields OK with count 0 and an empty
buffer — the distinct socket 5 is never written, contradicting the claim
that every distinct socket id of the snapshot is written (which would be
count 1 and buffer [5]). -/
theorem C2_listSockets_counterexample :
    pqos_cpu_get_sockets (some ⟨[⟨0, 5, 0, 0⟩]⟩) 1 7 = (Retval.OK, 0, []) ∧
    pqos_cpu_get_sockets (some ⟨[⟨0, 5, 0, 0⟩]⟩) 1 7 ≠ (Retval.OK, 1, [5]) ∧
    ([⟨0, 5, 0, 0⟩] : List CoreInfo).map CoreInfo.socket = [5] := by
  decide

/-- C2 amended: for every non-null snapshot and maxCount > 0, listSockets
writes each distinct socket id occurring among the cores AFTER THE FIRST
into the caller buffer in first-seen order (an order-preserving,
duplicate-free subsequence covering exactly those values) and reports
their number; it fails with the generic error code (Overflow) leaving the
count untouched when the number of such distinct sockets exceeds maxCount,
and fails with InvalidArgument when maxCount is 0 or the snapshot is
null. -/
theorem C2_listSockets_amended (cores : List CoreInfo) (maxCount count0 : Nat) :
    (pqos_cpu_get_sockets (some ⟨cores⟩) 0 count0 = (Retval.PARAM, count0, [])) ∧
    (pqos_cpu_get_sockets none maxCount count0 = (Retval.PARAM, count0, [])) ∧
    (0 < maxCount →
      ((cores.tail.map CoreInfo.socket).toFinset.card ≤ maxCount →
        pqos_cpu_get_sockets (some ⟨cores⟩) maxCount count0 =
          (Retval.OK, (cores.tail.map CoreInfo.socket).toFinset.card,
            firstSeen [] (cores.tail.map CoreInfo.socket)) ∧
        List.Sublist (firstSeen [] (cores.tail.map CoreInfo.socket))
          (cores.tail.map CoreInfo.socket) ∧
        (firstSeen [] (cores.tail.map CoreInfo.socket)).toFinset =
          (cores.tail.map CoreInfo.socket).toFinset ∧
        (firstSeen [] (cores.tail.map CoreInfo.socket)).Nodup) ∧
      (maxCount < (cores.tail.map CoreInfo.socket).toFinset.card →
        (pqos_cpu_get_sockets (some ⟨cores⟩) maxCount count0).1 = Retval.ERROR ∧
        (pqos_cpu_get_sockets (some ⟨cores⟩) maxCount count0).2.1 = count0)) := by
  refine ⟨by simp [pqos_cpu_get_sockets], rfl, fun hmc => ?_⟩
  have hw : pqos_cpu_get_sockets (some ⟨cores⟩) maxCount count0 =
      getSocketsLoop maxCount count0 cores.tail [] := by
    simp [pqos_cpu_get_sockets, Nat.pos_iff_ne_zero.mp hmc]
  obtain ⟨hok, herr⟩ := getSocketsLoop_spec maxCount count0 cores.tail [] (by simp)
  have hlen := firstSeen_nil_length (cores.tail.map CoreInfo.socket)
  constructor
  · intro hle
    have hle' : (firstSeen [] (cores.tail.map CoreInfo.socket)).length ≤ maxCount := by
      rw [hlen]; exact hle
    refine ⟨?_, ?_, ?_, ?_⟩
    · rw [hw, hok hle', hlen]
    · obtain ⟨t, ht, hs⟩ := firstSeen_sublist (cores.tail.map CoreInfo.socket) []
      rw [ht]; simpa using hs
    · rw [firstSeen_toFinset]; simp
    · exact firstSeen_nodup _ [] (by simp)
  · intro hgt
    have hgt' : maxCount < (firstSeen [] (cores.tail.map CoreInfo.socket)).length := by
      rw [hlen]; exact hgt
    rw [hw]
    exact herr hgt'

/-- Witness for C2 amended: three cores on sockets 1, 2, 3; the two
distinct sockets after the first core (2 and 3) are written in first-seen
order with count 2. -/
theorem C2_listSockets_amended_witness :
    pqos_cpu_get_sockets (some ⟨[⟨0, 1, 0, 0⟩, ⟨1, 2, 0, 0⟩, ⟨2, 3, 0, 0⟩]⟩) 2 7 =
      (Retval.OK, 2, [2, 3]) := by
  have h := ((C2_listSockets_amended
      [⟨0, 1, 0, 0⟩, ⟨1, 2, 0, 0⟩, ⟨2, 3, 0, 0⟩] 2 7).2.2 (by decide)).1 (by decide)
  exact h.1.trans (by decide)

/-- C9: whenever listSockets overflows its buffer, or coresOnSocket with
maxCount > 1 overflows, the result is the generic error code and the
caller's count variable retains its pre-call value. -/
theorem C9_overflow_count_unwritten (cpu : PqosCpuinfo) (s maxCount count0 : Nat) :
    (0 < maxCount →
      maxCount < (cpu.cores.tail.map CoreInfo.socket).toFinset.card →
      (pqos_cpu_get_sockets (some cpu) maxCount count0).1 = Retval.ERROR ∧
      (pqos_cpu_get_sockets (some cpu) maxCount count0).2.1 = count0) ∧
    (1 < maxCount →
      maxCount < (cpu.cores.filter (fun c => c.socket == s)).length →
      (pqos_cpu_get_cores (some cpu) s maxCount count0).1 = Retval.ERROR ∧
      (pqos_cpu_get_cores (some cpu) s maxCount count0).2.1 = count0) := by
  constructor
  · intro h1 h2
    have hw : pqos_cpu_get_sockets (some cpu) maxCount count0 =
        getSocketsLoop maxCount count0 cpu.cores.tail [] := by
      simp [pqos_cpu_get_sockets, Nat.pos_iff_ne_zero.mp h1]
    rw [hw]
    refine (getSocketsLoop_spec maxCount count0 cpu.cores.tail [] (by simp)).2 ?_
    rw [firstSeen_nil_length]
    exact h2
  · intro h1 h2
    have hw : pqos_cpu_get_cores (some cpu) s maxCount count0 =
        getCoresLoop s maxCount count0 cpu.cores [] := by
      simp [pqos_cpu_get_cores, show maxCount ≠ 0 by omega]
    rw [hw]
    refine ((getCoresLoop_spec s maxCount count0 (by omega) cpu.cores
      []) (by simp)).2.2 ?_
    simpa using h2

/-- Witness for C9: a socket-listing overflow (two distinct tail sockets,
capacity 1) and a core-listing overflow (three matches, capacity 2), both
with the count left at its initial value 7. -/
theorem C9_overflow_count_unwritten_witness :
    ((pqos_cpu_get_sockets
        (some ⟨[⟨0, 1, 0, 0⟩, ⟨1, 2, 0, 0⟩, ⟨2, 3, 0, 0⟩]⟩) 1 7).1 =
      Retval.ERROR ∧
     (pqos_cpu_get_sockets
        (some ⟨[⟨0, 1, 0, 0⟩, ⟨1, 2, 0, 0⟩, ⟨2, 3, 0, 0⟩]⟩) 1 7).2.1 = 7) ∧
    ((pqos_cpu_get_cores
        (some ⟨[⟨0, 5, 0, 0⟩, ⟨1, 5, 0, 0⟩, ⟨2, 5, 0, 0⟩]⟩) 5 2 7).1 =
      Retval.ERROR ∧
     (pqos_cpu_get_cores
        (some ⟨[⟨0, 5, 0, 0⟩, ⟨1, 5, 0, 0⟩, ⟨2, 5, 0, 0⟩]⟩) 5 2 7).2.1 = 7) :=
  ⟨(C9_overflow_count_unwritten ⟨[⟨0, 1, 0, 0⟩, ⟨1, 2, 0, 0⟩, ⟨2, 3, 0, 0⟩]⟩
      0 1 7).1 (by decide) (by decide),
   (C9_overflow_count_unwritten ⟨[⟨0, 5, 0, 0⟩, ⟨1, 5, 0, 0⟩, ⟨2, 5, 0, 0⟩]⟩
      5 2 7).2 (by decide) (by decide)⟩

/-- C10: when the first core's socket id appears on no later core and the
buffer can hold the distinct sockets of the later cores, listSockets
returns OK with that socket id absent from the output; with exactly one
core it reports count 0 and writes nothing, because the distinctness scan
starts at the second core. -/
theorem C10_first_socket_omitted (c : CoreInfo) (rest : List CoreInfo)
    (maxCount count0 : Nat) (h1 : 0 < maxCount)
    (h2 : c.socket ∉ rest.map CoreInfo.socket)
    (h3 : (rest.map CoreInfo.socket).toFinset.card ≤ maxCount) :
    (pqos_cpu_get_sockets (some ⟨c :: rest⟩) maxCount count0).1 = Retval.OK ∧
    c.socket ∉ (pqos_cpu_get_sockets (some ⟨c :: rest⟩) maxCount count0).2.2 ∧
    (rest = [] →
      pqos_cpu_get_sockets (some ⟨c :: rest⟩) maxCount count0 =
        (Retval.OK, 0, [])) := by
  have hw : pqos_cpu_get_sockets (some ⟨c :: rest⟩) maxCount count0 =
      getSocketsLoop maxCount count0 rest [] := by
    simp [pqos_cpu_get_sockets, Nat.pos_iff_ne_zero.mp h1]
  have hlen := firstSeen_nil_length (rest.map CoreInfo.socket)
  have hok := (getSocketsLoop_spec maxCount count0 rest [] (by simp)).1
    (by rw [hlen]; exact h3)
  refine ⟨?_, ?_, ?_⟩
  · rw [hw, hok]
  · rw [hw, hok]
    intro hmem
    rcases firstSeen_mem (rest.map CoreInfo.socket) [] c.socket hmem with h | h
    · simp at h
    · exact h2 h
  · intro hrest
    subst hrest
    rw [hw, hok]
    simp [firstSeen]

/-- Witness for C10: the single-core snapshot on socket 5 yields OK,
count 0, empty buffer, and 5 is absent from the output. -/
theorem C10_first_socket_omitted_witness :
    (pqos_cpu_get_sockets (some ⟨[⟨0, 5, 0, 0⟩]⟩) 1 7).1 = Retval.OK ∧
    (5 : Nat) ∉ (pqos_cpu_get_sockets (some ⟨[⟨0, 5, 0, 0⟩]⟩) 1 7).2.2 ∧
    (([] : List CoreInfo) = [] →
      pqos_cpu_get_sockets (some ⟨[⟨0, 5, 0, 0⟩]⟩) 1 7 = (Retval.OK, 0, [])) :=
  C10_first_socket_omitted ⟨0, 5, 0, 0⟩ [] 1 7 (by decide) (by decide) (by decide)

/-- C4: for every non-null snapshot, grouping key and group id, the
per-group core lister returns exactly the logical core ids of the cores
whose grouping-key value equals the group id, in snapshot order; with zero
matches it returns the absent result (NULL pointer, count untouched), not
an error code; the public L3 wrapper is the generic lister at the L3
key. -/
theorem C4_coresInGroup_filter (g : GroupKey) (cores : List CoreInfo)
    (id count0 : Nat) :
    (get_cores_per_topology_obj (some ⟨cores⟩) g.toType id count0 =
      if ((cores.filter (fun c => g.keyFun c == id)).map CoreInfo.lcore).length = 0
      then (count0, none)
      else (((cores.filter (fun c => g.keyFun c == id)).map CoreInfo.lcore).length,
        some ((cores.filter (fun c => g.keyFun c == id)).map CoreInfo.lcore))) ∧
    pqos_cpu_get_cores_l3id (some ⟨cores⟩) id count0 =
      get_cores_per_topology_obj (some ⟨cores⟩) GroupKey.l3.toType id count0 := by
  constructor
  · simp only [get_cores_per_topology_obj, coresPerObjLoop_eq_filter]
  · rfl

/-- C5: with maxCount = 1 and at least one core on the requested socket,
coresOnSocket takes the fast path: OK, count 1, and exactly the
first-encountered matching core, however many further cores match. -/
theorem C5_coresOnSocket_fastpath (cores : List CoreInfo) (s count0 : Nat)
    (m : CoreInfo) (ms : List CoreInfo)
    (h : cores.filter (fun c => c.socket == s) = m :: ms) :
    pqos_cpu_get_cores (some ⟨cores⟩) s 1 count0 = (Retval.OK, 1, [m.lcore]) := by
  have hw : pqos_cpu_get_cores (some ⟨cores⟩) s 1 count0 =
      getCoresLoop s 1 count0 cores [] := by
    simp [pqos_cpu_get_cores]
  rw [hw]
  exact getCoresLoop_one s count0 cores [] m ms h

/-- Witness for C5: socket 5 has two matching cores (lcore 1 and 2) after a
non-matching one; the fast path returns the first alone. -/
theorem C5_coresOnSocket_fastpath_witness :
    pqos_cpu_get_cores (some ⟨[⟨0, 9, 0, 0⟩, ⟨1, 5, 0, 0⟩, ⟨2, 5, 0, 0⟩]⟩) 5 1 7 =
      (Retval.OK, 1, [1]) :=
  C5_coresOnSocket_fastpath [⟨0, 9, 0, 0⟩, ⟨1, 5, 0, 0⟩, ⟨2, 5, 0, 0⟩] 5 7
    ⟨1, 5, 0, 0⟩ [⟨2, 5, 0, 0⟩] (by decide)

/-- C6: for maxCount > 1, coresOnSocket fails with the generic error code
(Overflow) when the matching cores exceed maxCount and when zero cores
match (NotFound); on success it returns the matching logical core ids in
snapshot order together with their count. -/
theorem C6_coresOnSocket_bounded (cores : List CoreInfo)
    (s maxCount count0 : Nat) (h : 1 < maxCount) :
    (maxCount < (cores.filter (fun c => c.socket == s)).length →
      (pqos_cpu_get_cores (some ⟨cores⟩) s maxCount count0).1 = Retval.ERROR ∧
      (pqos_cpu_get_cores (some ⟨cores⟩) s maxCount count0).2.1 = count0) ∧
    (cores.filter (fun c => c.socket == s) = [] →
      pqos_cpu_get_cores (some ⟨cores⟩) s maxCount count0 =
        (Retval.ERROR, count0, [])) ∧
    (cores.filter (fun c => c.socket == s) ≠ [] →
      (cores.filter (fun c => c.socket == s)).length ≤ maxCount →
      pqos_cpu_get_cores (some ⟨cores⟩) s maxCount count0 =
        (Retval.OK, (cores.filter (fun c => c.socket == s)).length,
          (cores.filter (fun c => c.socket == s)).map CoreInfo.lcore)) := by
  have hw : pqos_cpu_get_cores (some ⟨cores⟩) s maxCount count0 =
      getCoresLoop s maxCount count0 cores [] := by
    simp [pqos_cpu_get_cores, show maxCount ≠ 0 by omega]
  obtain ⟨hnone, hfit, hover⟩ :=
    getCoresLoop_spec s maxCount count0 (by omega) cores [] (by simp)
  refine ⟨fun hgt => ?_, fun hempty => ?_, fun hne hle => ?_⟩
  · rw [hw]
    exact hover (by simpa using hgt)
  · rw [hw]
    have := hnone (by simp [hempty])
    simpa using this
  · rw [hw]
    have hlen : 0 < (cores.filter (fun c => c.socket == s)).length :=
      List.length_pos.mpr hne
    have := hfit (by simpa using hlen) (by simpa using hle)
    simpa using this

/-- Witness for C6: three cores on socket 5 with capacity 4 are all
returned in order with count 3. -/
theorem C6_coresOnSocket_bounded_witness :
    pqos_cpu_get_cores (some ⟨[⟨0, 5, 0, 0⟩, ⟨1, 9, 0, 0⟩, ⟨2, 5, 0, 0⟩,
        ⟨3, 5, 0, 0⟩]⟩) 5 4 7 = (Retval.OK, 3, [0, 2, 3]) := by
  have h := (C6_coresOnSocket_bounded
      [⟨0, 5, 0, 0⟩, ⟨1, 9, 0, 0⟩, ⟨2, 5, 0, 0⟩, ⟨3, 5, 0, 0⟩] 5 4 7
      (by decide)).2.2 (by decide) (by decide)
  exact h.trans (by decide)

/-- C7: findByTag returns InvalidArgument on a null snapshot or a tag at or
beyond the end of the enumeration; for a tag inside the enumeration it
returns OK with the first record in list order whose tag matches, and the
CapabilityAbsent (resource) code — a code distinct from both the generic
error and the parameter code — when no record matches. -/
theorem C7_findByTag_first (cap : PqosCap) (t : Nat) :
    (pqos_cap_get_type none t = (Retval.PARAM, none)) ∧
    (PQOS_CAP_TYPE_NUMOF ≤ t →
      pqos_cap_get_type (some cap) t = (Retval.PARAM, none)) ∧
    (t < PQOS_CAP_TYPE_NUMOF →
      pqos_cap_get_type (some cap) t =
        match cap.capabilities.find? (fun c => capTypeNat c == t) with
        | some c => (Retval.OK, some c)
        | none => (Retval.RESOURCE, none)) ∧
    (Retval.RESOURCE ≠ Retval.ERROR ∧ Retval.RESOURCE ≠ Retval.PARAM) := by
  refine ⟨rfl, fun h => ?_, fun h => ?_, by decide⟩
  · simp [pqos_cap_get_type, h]
  · rw [show pqos_cap_get_type (some cap) t = findCapLoop t cap.capabilities by
      simp [pqos_cap_get_type, Nat.not_le.mpr h]]
    exact findCapLoop_eq_find t cap.capabilities

/-- Witness for C7: a snapshot holding only an L3 allocation record: the
MON tag (0) yields CapabilityAbsent, the out-of-range tag 5 yields
InvalidArgument, and the L3CA tag (1) finds the record. -/
theorem C7_findByTag_first_witness :
    pqos_cap_get_type (some ⟨[Capability.l3ca ⟨4, 1, 0⟩]⟩) 0 =
      (Retval.RESOURCE, none) ∧
    pqos_cap_get_type (some ⟨[Capability.l3ca ⟨4, 1, 0⟩]⟩) 5 =
      (Retval.PARAM, none) ∧
    pqos_cap_get_type (some ⟨[Capability.l3ca ⟨4, 1, 0⟩]⟩) 1 =
      (Retval.OK, some (Capability.l3ca ⟨4, 1, 0⟩)) := by
  refine ⟨?_, ?_, ?_⟩
  · exact ((C7_findByTag_first ⟨[Capability.l3ca ⟨4, 1, 0⟩]⟩ 0).2.2.1
      (by decide)).trans (by decide)
  · exact (C7_findByTag_first ⟨[Capability.l3ca ⟨4, 1, 0⟩]⟩ 5).2.1 (by decide)
  · exact ((C7_findByTag_first ⟨[Capability.l3ca ⟨4, 1, 0⟩]⟩ 1).2.2.1
      (by decide)).trans (by decide)

/-- C8: findEvent resolves the Monitoring capability first and propagates
the CapabilityAbsent code unchanged when there is none; otherwise it scans
the monitoring event list and returns the first event whose tag matches,
or the generic error code (NotFound) when none does. -/
theorem C8_findEvent (cap : PqosCap) (e : Nat) :
    (pqos_cap_get_event (some cap) e =
      match monCap cap with
      | none => (Retval.RESOURCE, none)
      | some m =>
        match m.events.find? (fun ev => ev.type == e) with
        | some ev => (Retval.OK, some ev)
        | none => (Retval.ERROR, none)) ∧
    ((pqos_cap_get_type (some cap) PQOS_CAP_TYPE_MON).1 = Retval.RESOURCE →
      pqos_cap_get_event (some cap) e = (Retval.RESOURCE, none)) := by
  refine ⟨pqos_cap_get_event_eq cap e, fun h => ?_⟩
  have hgt : pqos_cap_get_type (some cap) PQOS_CAP_TYPE_MON =
      findCapLoop PQOS_CAP_TYPE_MON cap.capabilities := by
    simp [pqos_cap_get_type, PQOS_CAP_TYPE_NUMOF, PQOS_CAP_TYPE_MON]
  have hmon := findCapLoop_mon cap.capabilities
  have hnone : monCap cap = none := by
    cases hc : cap.capabilities.findSome?
        (fun c => match c with | .mon m => some m | _ => none) with
    | none => simpa [monCap] using hc
    | some m =>
      rw [hgt, hmon, hc] at h
      simp at h
  rw [pqos_cap_get_event_eq cap e, hnone]

/-- Witness for C8: on a snapshot without a Monitoring record, findEvent
for event tag 2 propagates CapabilityAbsent. -/
theorem C8_findEvent_witness :
    pqos_cap_get_event (some ⟨[Capability.l3ca ⟨4, 1, 0⟩]⟩) 2 =
      (Retval.RESOURCE, none) :=
  (C8_findEvent ⟨[Capability.l3ca ⟨4, 1, 0⟩]⟩ 2).2 (by decide)
